import Mathlib

/-!
Shallow embedding of the qcoin program (src/main.rs, src/helpers.rs) and
verification of its specification claims.

Bytes are modelled as natural numbers below 256; byte buffers as
lists of naturals; the fixed 32-byte PRNG seed array as a function
from Fin 32 to Nat.  Machine counters (u32, u64) are modelled as Nat:
on every completed run the Rust counters do not wrap (debug builds
abort on overflow), so the Nat model is faithful to completed runs.
External effects (HTTP providers, the OS random generator, the StdRng
stream of the rand crate, the file system) are not code of this
repository; each is modelled as an explicit parameter giving its
outcome, and the control flow around them is embedded from main.rs.
-/

namespace QCoin

/-! ## Bit counting (count_bits, main.rs lines 181-191) -/

/-- Population count of one byte, embedding u8 count_ones: the number of
set bits among the 8 bits of a byte value. -/
def countOnes (b : Nat) : Nat :=
  b / 128 % 2 + b / 64 % 2 + b / 32 % 2 + b / 16 % 2 +
  b / 8 % 2 + b / 4 % 2 + b / 2 % 2 + b % 2

/-- Embedding of count_bits (main.rs lines 181-191): accumulate
count_ones and count_zeros of every byte, with u8 count_zeros equal to
8 minus count_ones. -/
def count_bits (bytes : List Nat) : Nat × Nat :=
  bytes.foldl (fun acc b => (acc.1 + countOnes b, acc.2 + (8 - countOnes b))) (0, 0)

/-! ## The decision step (main.rs lines 174-178) -/

/-- Three-valued verdict type from the specification; the code itself
only ever prints YES or NO. -/
inductive Verdict where
  | yes : Verdict
  | no : Verdict
  | tie : Verdict
deriving DecidableEq

/-- Embedding of the decision step of main (main.rs lines 174-178):
prints YES when ones > zeros and NO otherwise.  Embedded into the
three-valued Verdict type of the specification so the two can be
compared. -/
def main_verdict (ones zeros : Nat) : Verdict :=
  if ones > zeros then Verdict.yes else Verdict.no

/-! ## Hex encoding and decoding (the hex crate as used by main.rs) -/

/-- Numeric value of one ASCII hex digit, none for any other
character (accepts 0-9, a-f, A-F, as hex::decode does). -/
def hexDigitVal (c : Char) : Option Nat :=
  if Char.ofNat 48 ≤ c ∧ c ≤ Char.ofNat 57 then some (c.toNat - 48)
  else if Char.ofNat 97 ≤ c ∧ c ≤ Char.ofNat 102 then some (c.toNat - 97 + 10)
  else if Char.ofNat 65 ≤ c ∧ c ≤ Char.ofNat 70 then some (c.toNat - 65 + 10)
  else none

/-- Embedding of char is_ascii_hexdigit: the characters accepted as hex
digits are exactly those hexDigitVal understands. -/
def isHexDigitChar (c : Char) : Bool :=
  (hexDigitVal c).isSome

/-- Lowercase hex digit character for a value below 16, as produced by
hex::encode. -/
def hexChar (x : Nat) : Char :=
  if x < 10 then Char.ofNat (48 + x) else Char.ofNat (97 + (x - 10))

/-- Embedding of hex::encode: two lowercase hex digits per byte,
high nibble first. -/
def hexEncode : List Nat → List Char
  | [] => []
  | b :: bs => hexChar (b / 16) :: hexChar (b % 16) :: hexEncode bs

/-- Embedding of hex::decode: consumes two hex digits per output
byte; fails on an odd-length input or any non-hex character. -/
def hexDecode : List Char → Option (List Nat)
  | [] => some []
  | [_] => none
  | c1 :: c2 :: rest =>
    match hexDigitVal c1, hexDigitVal c2, hexDecode rest with
    | some h, some l, some bs => some ((16 * h + l) :: bs)
    | _, _, _ => none

/-- ASCII whitespace predicate used to model str trim. -/
def isSpaceChar (c : Char) : Bool :=
  c = Char.ofNat 32 || c = Char.ofNat 9 || c = Char.ofNat 10 || c = Char.ofNat 13

/-- Model of str trim: drop whitespace from both ends. -/
def trimChars (s : List Char) : List Char :=
  ((s.dropWhile isSpaceChar).reverse.dropWhile isSpaceChar).reverse

/-- Model of the 0x or 0X prefix stripping done before hex validation
(main.rs lines 257-261). -/
def strip0x (s : List Char) : List Char :=
  if s.take 2 = [Char.ofNat 48, Char.ofNat 120] ∨ s.take 2 = [Char.ofNat 48, Char.ofNat 88]
  then s.drop 2 else s

/-- Embedding of parse_hex_string (main.rs lines 253-280): trim, strip
an optional 0x prefix, then reject an empty string, an odd length, or a
non-hex character before decoding. -/
def parse_hex_string (hex_input : List Char) : Except String (List Nat) :=
  let hex_str := strip0x (trimChars hex_input)
  if hex_str.isEmpty then Except.error "Empty hex string"
  else if hex_str.length % 2 ≠ 0 then Except.error "Hex string must have even length"
  else if ¬ (hex_str.all isHexDigitChar) then Except.error "Hex string contains invalid characters"
  else
    match hexDecode hex_str with
    | some bytes => Except.ok bytes
    | none => Except.error "hex decode error"

/-- Embedding of save_quantum_bytes_to_file (main.rs lines 202-208):
the content written to the cache artifact is the hex encoding of the
byte buffer. -/
def save_quantum_bytes_to_file (bytes : List Nat) : List Char :=
  hexEncode bytes

/-- Embedding of load_saved_quantum_bytes (main.rs lines 282-286): read
the cache artifact (none models a missing or unreadable file), trim it
and hex-decode it; a failed decode models a corrupt cache. -/
def load_saved_quantum_bytes (cacheFile : Option (List Char)) : Option (List Nat) :=
  cacheFile.bind fun content => hexDecode (trimChars content)

/-! ## Seed derivation and per-flip seeds (perform_multiple_flips,
main.rs lines 288-348) -/

/-- Embedding of the seed construction of perform_multiple_flips
(main.rs lines 297-306): a 32-byte array that is the first 32 bytes of
the entropy buffer when the buffer is at least 32 bytes long, and
otherwise the buffer repeated cyclically to fill 32 bytes (all zeros
when the buffer is empty, since cycling an empty iterator yields
nothing and the array stays zero-initialised). -/
def deriveSeed (seed_bytes : List Nat) : Fin 32 → Nat := fun i =>
  if 32 ≤ seed_bytes.length then seed_bytes.getD i.val 0
  else if seed_bytes.length = 0 then 0
  else seed_bytes.getD (i.val % seed_bytes.length) 0

/-- Embedding of the per-flip seed construction (main.rs lines
312-321): XOR the little-endian bytes of the flip index (usize, 8
bytes) into the first 8 bytes of the base seed; byte k of the index is
its k-th base-256 digit. -/
def flipSeed (seed : Fin 32 → Nat) (flip_index : Nat) : Fin 32 → Nat := fun i =>
  if i.val < 8 then seed i ^^^ (flip_index / 256 ^ i.val % 256) else seed i

/-- Componentwise sum of two tallies, the reduction operator of the
rayon reduce in perform_multiple_flips (main.rs line 330). -/
def tallyAdd (a b : Nat × Nat) : Nat × Nat :=
  (a.1 + b.1, a.2 + b.2)

/-- Reduction of a list of per-task tallies with identity (0, 0),
embedding the rayon reduce (main.rs line 330). -/
def reduceTallies (l : List (Nat × Nat)) : Nat × Nat :=
  l.foldl tallyAdd (0, 0)

/-- Embedding of perform_multiple_flips (main.rs lines 288-348).  The
StdRng stream of the rand crate is external code, modelled as the
parameter rng mapping a 32-byte seed and a byte count to the bytes the
seeded generator fills; it is a function, hence deterministic.  Each
of the num_flips - 1 CSRNG flips draws 1024 bytes from its own seeded
generator and tallies them; the tallies are reduced; the final flip
tallies the entropy buffer directly.  Returns (total ones, total
zeros, direct-entropy ones, direct-entropy zeros). -/
def perform_multiple_flips (rng : (Fin 32 → Nat) → Nat → List Nat)
    (seed_bytes : List Nat) (num_flips : Nat) : Nat × Nat × Nat × Nat :=
  let csrng_flips := num_flips - 1
  let seed := deriveSeed seed_bytes
  let csrngTally := reduceTallies
    ((List.range csrng_flips).map fun flip_index =>
      count_bits (rng (flipSeed seed flip_index) 1024))
  let q := count_bits seed_bytes
  (csrngTally.1 + q.1, csrngTally.2 + q.2, q.1, q.2)

/-! ## Entropy source chain (fetch_random_bytes_with_source, main.rs
lines 350-409) -/

/-- Embedding of fetch_crypto_srng_bytes (main.rs lines 470-478): fill
a vector of exactly num_bytes bytes from the OS cryptographic
generator, modelled as the stream osrng; this source always
succeeds. -/
def fetch_crypto_srng_bytes (osrng : Nat → Nat) (num_bytes : Nat) : List Nat :=
  (List.range num_bytes).map osrng

/-- Embedding of fetch_random_bytes_with_source (main.rs lines
350-409).  The two network providers are external; anu and qrand map a
requested byte count to some bytes on success and none on any failure
(network error, bad status, malformed response, short read, explicit
failure flag).  ANU is capped at 1024 bytes per the API limit (line
359).  The chain tries ANU, then qrandom.io, then the saved cache,
then the local CSRNG, returning the first success together with the
quantum flag (true for the first three sources, false for the
CSRNG). -/
def fetch_random_bytes_with_source (anu qrand : Nat → Option (List Nat))
    (cacheFile : Option (List Char)) (osrng : Nat → Nat)
    (num_bytes : Nat) : List Nat × Bool :=
  match anu (min num_bytes 1024) with
  | some bytes => (bytes, true)
  | none =>
    match qrand num_bytes with
    | some bytes => (bytes, true)
    | none =>
      match load_saved_quantum_bytes cacheFile with
      | some bytes => (bytes, true)
      | none => (fetch_crypto_srng_bytes osrng num_bytes, false)

/-- Embedding of the cache-write gate of main (main.rs lines 145-151):
the entropy bytes are saved when they came from a quantum source and no
source file was given, or else when an explicit hex string was
given. -/
def saveOccurs (is_quantum has_source_file has_hex_string : Bool) : Bool :=
  if is_quantum && !has_source_file then true
  else if has_hex_string then true
  else false

/-! ## Helper lemmas -/

lemma getD_take_of_lt : ∀ (n : Nat) (l : List Nat) (i : Nat), i < n →
    (l.take n).getD i 0 = l.getD i 0 := by
  intro n
  induction n with
  | zero => intro l i hi; omega
  | succ n ih =>
    intro l i hi
    cases l with
    | nil => simp
    | cons x xs =>
      cases i with
      | zero => simp [List.getD]
      | succ i =>
        simp only [List.take_succ_cons, List.getD_cons_succ]
        exact ih xs i (by omega)

lemma deriveSeed_eq_of_take_eq {bs cs : List Nat} (hb : 32 ≤ bs.length)
    (hc : 32 ≤ cs.length) (h : bs.take 32 = cs.take 32) :
    deriveSeed bs = deriveSeed cs := by
  funext i
  unfold deriveSeed
  rw [if_pos hb, if_pos hc, ← getD_take_of_lt 32 bs i.val i.isLt,
    ← getD_take_of_lt 32 cs i.val i.isLt, h]

/-! ## C1: the decision step -/

/-- C1 counterexample: with a tied tally (ones = zeros = 5) the decision
step of main returns No, not the Tie verdict the claim requires; Tie is
not a reachable outcome of the code. -/
theorem C1_counterexample :
    main_verdict 5 5 = Verdict.no ∧ main_verdict 5 5 ≠ Verdict.tie := by
  decide

/-- C1 (amended): the decision step is two-valued: it returns Yes
exactly when ones > zeros and No exactly when ones ≤ zeros (a tie is
folded into No); it never returns Tie. -/
theorem C1_verdict_two_valued : ∀ ones zeros : Nat,
    (main_verdict ones zeros = Verdict.yes ↔ zeros < ones) ∧
    (main_verdict ones zeros = Verdict.no ↔ ones ≤ zeros) ∧
    main_verdict ones zeros ≠ Verdict.tie := by
  intro o z
  refine ⟨?_, ?_, ?_⟩ <;> unfold main_verdict <;> split <;> simp <;> omega

/-! ## C2: single-seed derivation for buffers of at least 32 bytes -/

/-- C2 counterexample: two 33-byte buffers that differ only in their
last byte derive the same seed, so the derivation is not a hash of the
whole buffer and the last byte has no influence on the seed. -/
theorem C2_counterexample :
    deriveSeed (List.replicate 33 0) = deriveSeed (List.replicate 32 0 ++ [7]) ∧
    List.replicate 33 0 ≠ List.replicate 32 0 ++ [7] := by
  decide

/-- C2 (amended): for an entropy buffer of length at least 32, the
derived 32-byte seed is the plain truncation of the buffer to its
first 32 bytes, and therefore depends on the first 32 bytes only. -/
theorem C2_seed_truncation : ∀ bs : List Nat, 32 ≤ bs.length →
    (∀ i : Fin 32, deriveSeed bs i = bs.getD i.val 0) ∧
    (∀ cs : List Nat, 32 ≤ cs.length → bs.take 32 = cs.take 32 →
      deriveSeed bs = deriveSeed cs) := by
  intro bs hb
  constructor
  · intro i
    unfold deriveSeed
    rw [if_pos hb]
  · intro cs hc h
    exact deriveSeed_eq_of_take_eq hb hc h

/-- C2 witness: the amended theorem applied to the 33-byte buffer of
zeros and the buffer equal to it on the first 32 bytes. -/
theorem C2_seed_truncation_witness :
    deriveSeed (List.replicate 33 0) ⟨0, by omega⟩ = (List.replicate 33 0).getD 0 0 ∧
    deriveSeed (List.replicate 33 0) = deriveSeed (List.replicate 32 0 ++ [9]) :=
  ⟨(C2_seed_truncation (List.replicate 33 0) (by decide)).1 ⟨0, by omega⟩,
   (C2_seed_truncation (List.replicate 33 0) (by decide)).2
     (List.replicate 32 0 ++ [9]) (by decide) (by decide)⟩

/-! ## C3: order of the entropy source chain -/

/-- C3: the chain tries ANU, then qrandom.io, then the saved cache,
then the local CSRNG, in this order; the first source that succeeds
short-circuits all later ones; a missing cache (none) or a corrupt
cache (content that does not hex-decode) makes the cache step fail and
the chain fall through to the CSRNG instead of failing the run. -/
theorem C3_chain_order : ∀ (anu qrand : Nat → Option (List Nat))
    (cacheFile : Option (List Char)) (osrng : Nat → Nat) (n : Nat),
    (∀ b, anu (min n 1024) = some b →
      fetch_random_bytes_with_source anu qrand cacheFile osrng n = (b, true)) ∧
    (anu (min n 1024) = none → ∀ b, qrand n = some b →
      fetch_random_bytes_with_source anu qrand cacheFile osrng n = (b, true)) ∧
    (anu (min n 1024) = none → qrand n = none →
      ∀ b, load_saved_quantum_bytes cacheFile = some b →
      fetch_random_bytes_with_source anu qrand cacheFile osrng n = (b, true)) ∧
    (anu (min n 1024) = none → qrand n = none →
      load_saved_quantum_bytes cacheFile = none →
      fetch_random_bytes_with_source anu qrand cacheFile osrng n =
        (fetch_crypto_srng_bytes osrng n, false)) ∧
    load_saved_quantum_bytes none = none ∧
    (∀ content, hexDecode (trimChars content) = none →
      load_saved_quantum_bytes (some content) = none) := by
  intro anu qrand cacheFile osrng n
  refine ⟨?_, ?_, ?_, ?_, rfl, ?_⟩
  · intro b h
    simp [fetch_random_bytes_with_source, h]
  · intro h1 b h2
    simp [fetch_random_bytes_with_source, h1, h2]
  · intro h1 h2 b h3
    simp [fetch_random_bytes_with_source, h1, h2, h3]
  · intro h1 h2 h3
    simp [fetch_random_bytes_with_source, h1, h2, h3]
  · intro content h
    simp [load_saved_quantum_bytes, h]

/-- C3 witness: a succeeding first provider short-circuits the chain,
and with both providers failing and an absent cache the chain lands on
the CSRNG. -/
theorem C3_chain_order_witness :
    fetch_random_bytes_with_source (fun _ => some [1, 2, 3]) (fun _ => none)
      none (fun _ => 0) 3 = ([1, 2, 3], true) ∧
    fetch_random_bytes_with_source (fun _ => none) (fun _ => none)
      none (fun _ => 0) 3 = (fetch_crypto_srng_bytes (fun _ => 0) 3, false) :=
  ⟨(C3_chain_order (fun _ => some [1, 2, 3]) (fun _ => none) none (fun _ => 0) 3).1
      [1, 2, 3] rfl,
   (C3_chain_order (fun _ => none) (fun _ => none) none (fun _ => 0) 3).2.2.2.1
      rfl rfl rfl⟩

/-! ## C7: the all-remote-failure, no-cache path -/

/-- C7: when both remote providers fail and no cache file exists, the
chain returns the CSRNG bytes with the quantum flag false (quality
Fallback), the returned byte count equals the requested count, and the
cache-write gate of main does not fire for this result (persistence
requires the quantum flag). -/
theorem C7_fallback_quality : ∀ (anu qrand : Nat → Option (List Nat))
    (osrng : Nat → Nat) (n : Nat),
    anu (min n 1024) = none → qrand n = none →
    fetch_random_bytes_with_source anu qrand none osrng n =
      (fetch_crypto_srng_bytes osrng n, false) ∧
    (fetch_random_bytes_with_source anu qrand none osrng n).1.length = n ∧
    saveOccurs (fetch_random_bytes_with_source anu qrand none osrng n).2
      false false = false := by
  intro anu qrand osrng n h1 h2
  have hmain : fetch_random_bytes_with_source anu qrand none osrng n =
      (fetch_crypto_srng_bytes osrng n, false) := by
    simp [fetch_random_bytes_with_source, load_saved_quantum_bytes, h1, h2]
  refine ⟨hmain, ?_, ?_⟩
  · rw [hmain]
    simp [fetch_crypto_srng_bytes]
  · rw [hmain]
    simp [saveOccurs]

/-- C7 witness: the fallback path at a concrete request of 5 bytes. -/
theorem C7_fallback_quality_witness :
    fetch_random_bytes_with_source (fun _ => none) (fun _ => none) none
      (fun _ => 7) 5 = (fetch_crypto_srng_bytes (fun _ => 7) 5, false) ∧
    (fetch_random_bytes_with_source (fun _ => none) (fun _ => none) none
      (fun _ => 7) 5).1.length = 5 ∧
    saveOccurs (fetch_random_bytes_with_source (fun _ => none) (fun _ => none)
      none (fun _ => 7) 5).2 false false = false :=
  C7_fallback_quality (fun _ => none) (fun _ => none) (fun _ => 7) 5 rfl rfl

/-! ## C9: hex round-trip through the cache artifact -/

lemma hexDigitVal_hexChar : ∀ x : Nat, x < 16 → hexDigitVal (hexChar x) = some x := by
  decide

lemma hexChar_not_space : ∀ x : Nat, x < 16 → isSpaceChar (hexChar x) = false := by
  decide

lemma hexDecode_hexEncode : ∀ bs : List Nat, (∀ b ∈ bs, b < 256) →
    hexDecode (hexEncode bs) = some bs := by
  intro bs
  induction bs with
  | nil => intro _; rfl
  | cons b bs ih =>
    intro h
    have hb : b < 256 := h b (by simp)
    have hrec := ih fun x hx => h x (by simp [hx])
    have hmod : b % 16 < 16 := by omega
    have hdiv : b / 16 < 16 := by omega
    simp only [hexEncode, hexDecode]
    rw [hexDigitVal_hexChar _ hdiv, hexDigitVal_hexChar _ hmod, hrec]
    show some ((16 * (b / 16) + b % 16) :: bs) = some (b :: bs)
    have : 16 * (b / 16) + b % 16 = b := by omega
    rw [this]

lemma dropWhile_eq_self_of_not {p : Char → Bool} :
    ∀ l : List Char, (∀ c ∈ l, p c = false) → l.dropWhile p = l := by
  intro l h
  cases l with
  | nil => rfl
  | cons x xs => simp [List.dropWhile_cons, h x (by simp)]

lemma mem_hexEncode_not_space {bs : List Nat} (h : ∀ b ∈ bs, b < 256) :
    ∀ c ∈ hexEncode bs, isSpaceChar c = false := by
  induction bs with
  | nil => intro c hc; simp [hexEncode] at hc
  | cons b rest ih =>
    intro c hc
    have hb : b < 256 := h b (by simp)
    simp only [hexEncode, List.mem_cons] at hc
    rcases hc with h1 | h1 | h1
    · rw [h1]; exact hexChar_not_space _ (by omega)
    · rw [h1]; exact hexChar_not_space _ (by omega)
    · exact ih (fun x hx => h x (by simp [hx])) c h1

lemma trim_hexEncode {bs : List Nat} (h : ∀ b ∈ bs, b < 256) :
    trimChars (hexEncode bs) = hexEncode bs := by
  have hall := mem_hexEncode_not_space h
  unfold trimChars
  rw [dropWhile_eq_self_of_not _ hall,
    dropWhile_eq_self_of_not _ (fun c hc => hall c (List.mem_reverse.mp hc)),
    List.reverse_reverse]

/-- C9: writing a byte buffer to the cache artifact (hex encoding) and
reading it back (trim, then hex decoding) reproduces the original
buffer exactly, for every buffer of bytes, including the empty one. -/
theorem C9_cache_roundtrip : ∀ bs : List Nat, (∀ b ∈ bs, b < 256) →
    load_saved_quantum_bytes (some (save_quantum_bytes_to_file bs)) = some bs := by
  intro bs h
  unfold load_saved_quantum_bytes save_quantum_bytes_to_file
  show hexDecode (trimChars (hexEncode bs)) = some bs
  rw [trim_hexEncode h, hexDecode_hexEncode bs h]

/-- C9 witness: the round-trip at the empty buffer and at a concrete
4-byte buffer. -/
theorem C9_cache_roundtrip_witness :
    load_saved_quantum_bytes (some (save_quantum_bytes_to_file [])) = some [] ∧
    load_saved_quantum_bytes (some (save_quantum_bytes_to_file [222, 173, 190, 239])) =
      some [222, 173, 190, 239] :=
  ⟨C9_cache_roundtrip [] (by simp),
   C9_cache_roundtrip [222, 173, 190, 239] (by decide)⟩

/-! ## C8: parsing the explicit hex override -/

lemma hexDecode_isSome : ∀ s : List Char, s.length % 2 = 0 →
    s.all isHexDigitChar = true → (hexDecode s).isSome = true
  | [], _, _ => rfl
  | [c], h, _ => by simp at h
  | c1 :: c2 :: rest, h, hall => by
    have hlen : rest.length % 2 = 0 := by
      simp only [List.length_cons] at h
      omega
    simp only [List.all_cons, Bool.and_eq_true] at hall
    obtain ⟨h1, h2, hrest⟩ := hall
    have ih := hexDecode_isSome rest hlen hrest
    unfold isHexDigitChar at h1 h2
    obtain ⟨a, ha⟩ := Option.isSome_iff_exists.mp h1
    obtain ⟨b, hb⟩ := Option.isSome_iff_exists.mp h2
    obtain ⟨bs, hbs⟩ := Option.isSome_iff_exists.mp ih
    simp only [hexDecode, ha, hb, hbs, Option.isSome_some]

/-- C8: the explicit hex override parser accepts a 0x-prefixed or bare
even-length hex digit string (0xdeadbeef yields exactly the bytes 222,
173, 190, 239, and every nonempty even-length all-hex input after trim
and prefix-stripping decodes successfully), and returns an error for
every input that is empty, of odd length, or contains a non-hex
character after trimming and prefix-stripping (in particular the
string zz). -/
theorem C8_parse_hex_override :
    parse_hex_string [Char.ofNat 48, Char.ofNat 120, Char.ofNat 100, Char.ofNat 101,
      Char.ofNat 97, Char.ofNat 100, Char.ofNat 98, Char.ofNat 101,
      Char.ofNat 101, Char.ofNat 102] = Except.ok [222, 173, 190, 239] ∧
    (∀ s : List Char, strip0x (trimChars s) = [] →
      ∃ e, parse_hex_string s = Except.error e) ∧
    (∀ s : List Char, (strip0x (trimChars s)).length % 2 ≠ 0 →
      ∃ e, parse_hex_string s = Except.error e) ∧
    (∀ s : List Char, ¬ ((strip0x (trimChars s)).all isHexDigitChar = true) →
      ∃ e, parse_hex_string s = Except.error e) ∧
    (∀ s : List Char, strip0x (trimChars s) ≠ [] →
      (strip0x (trimChars s)).length % 2 = 0 →
      (strip0x (trimChars s)).all isHexDigitChar = true →
      ∃ bs, parse_hex_string s = Except.ok bs ∧
        hexDecode (strip0x (trimChars s)) = some bs) ∧
    (∃ e, parse_hex_string [Char.ofNat 122, Char.ofNat 122] = Except.error e) := by
  refine ⟨by rfl, ?_, ?_, ?_, ?_, ?_⟩
  · intro s h
    refine ⟨"Empty hex string", ?_⟩
    simp [parse_hex_string, h]
  · intro s h
    by_cases he : (strip0x (trimChars s)).isEmpty
    · exact ⟨"Empty hex string", by simp [parse_hex_string, he]⟩
    · exact ⟨"Hex string must have even length", by simp [parse_hex_string, he, h]⟩
  · intro s h
    by_cases he : (strip0x (trimChars s)).isEmpty
    · exact ⟨"Empty hex string", by simp [parse_hex_string, he]⟩
    · by_cases hl : (strip0x (trimChars s)).length % 2 ≠ 0
      · exact ⟨"Hex string must have even length", by simp [parse_hex_string, he, hl]⟩
      · push_neg at hl
        exact ⟨"Hex string contains invalid characters",
          by simp [parse_hex_string, he, hl, h]⟩
  · intro s hne hlen hall
    have he : (strip0x (trimChars s)).isEmpty = false := by
      cases hx : strip0x (trimChars s) with
      | nil => exact absurd hx hne
      | cons a l => rfl
    obtain ⟨bs, hbs⟩ := Option.isSome_iff_exists.mp
      (hexDecode_isSome (strip0x (trimChars s)) hlen hall)
    refine ⟨bs, ?_, hbs⟩
    simp [parse_hex_string, he, hlen, hall, hbs]
  · exact ⟨"Hex string contains invalid characters", by rfl⟩

/-- C8 witness: the acceptance conjunct applied to the concrete bare
input ab, which decodes to the byte 171. -/
theorem C8_parse_hex_override_witness :
    ∃ bs, parse_hex_string [Char.ofNat 97, Char.ofNat 98] = Except.ok bs ∧
      hexDecode (strip0x (trimChars [Char.ofNat 97, Char.ofNat 98])) = some bs :=
  C8_parse_hex_override.2.2.2.2.1 [Char.ofNat 97, Char.ofNat 98]
    (by decide) (by decide) (by decide)

/-! ## C5 and C6: tally invariants and order independence -/

lemma countOnes_le_eight (b : Nat) : countOnes b ≤ 8 := by
  unfold countOnes
  omega

lemma count_bits_go : ∀ (bytes : List Nat) (acc : Nat × Nat),
    (bytes.foldl (fun acc b => (acc.1 + countOnes b, acc.2 + (8 - countOnes b))) acc).1 +
    (bytes.foldl (fun acc b => (acc.1 + countOnes b, acc.2 + (8 - countOnes b))) acc).2 =
      acc.1 + acc.2 + 8 * bytes.length := by
  intro bytes
  induction bytes with
  | nil => intro acc; simp
  | cons b rest ih =>
    intro acc
    simp only [List.foldl_cons, List.length_cons]
    rw [ih]
    have := countOnes_le_eight b
    dsimp only
    omega

lemma count_bits_sum (bytes : List Nat) :
    (count_bits bytes).1 + (count_bits bytes).2 = 8 * bytes.length := by
  unfold count_bits
  simpa using count_bits_go bytes (0, 0)

lemma foldl_tallyAdd_eq : ∀ (l : List (Nat × Nat)) (a : Nat × Nat),
    l.foldl tallyAdd a = (a.1 + (l.map Prod.fst).sum, a.2 + (l.map Prod.snd).sum) := by
  intro l
  induction l with
  | nil => intro a; simp
  | cons x xs ih =>
    intro a
    simp only [List.foldl_cons, List.map_cons, List.sum_cons]
    rw [ih]
    simp only [tallyAdd, Prod.mk.injEq]
    constructor <;> omega

lemma reduceTallies_eq (l : List (Nat × Nat)) :
    reduceTallies l = ((l.map Prod.fst).sum, (l.map Prod.snd).sum) := by
  unfold reduceTallies
  rw [foldl_tallyAdd_eq]
  simp

lemma sums_of_tallies : ∀ (m : Nat) (g : Nat → Nat × Nat),
    (∀ i, (g i).1 + (g i).2 = 8192) →
    (((List.range m).map g).map Prod.fst).sum +
    (((List.range m).map g).map Prod.snd).sum = m * 8192 := by
  intro m g hg
  induction m with
  | zero => simp
  | succ m ih =>
    rw [List.range_succ]
    simp only [List.map_append, List.map_cons, List.map_nil, List.sum_append,
      List.sum_cons, List.sum_nil]
    have := hg m
    omega

/-- C5: the bit tally of one byte buffer satisfies ones + zeros = 8
times the byte count, and for a whole multi-flip run the reduced tally
satisfies total ones + total zeros = 8 times the total bytes drawn
((num_flips - 1) CSRNG tasks of 1024 bytes each plus the entropy
buffer tallied directly); the per-task invariant for the direct-entropy
task is the last conjunct. -/
theorem C5_tally_invariant :
    (∀ bytes : List Nat, (count_bits bytes).1 + (count_bits bytes).2 = 8 * bytes.length) ∧
    (∀ (rng : (Fin 32 → Nat) → Nat → List Nat) (sb : List Nat) (n : Nat),
      (∀ s : Fin 32 → Nat, (rng s 1024).length = 1024) →
      (perform_multiple_flips rng sb n).1 + (perform_multiple_flips rng sb n).2.1 =
        8 * ((n - 1) * 1024 + sb.length) ∧
      (perform_multiple_flips rng sb n).2.2.1 + (perform_multiple_flips rng sb n).2.2.2 =
        8 * sb.length) := by
  refine ⟨count_bits_sum, ?_⟩
  intro rng sb n hlen
  have hper : ∀ i : Nat,
      (count_bits (rng (flipSeed (deriveSeed sb) i) 1024)).1 +
      (count_bits (rng (flipSeed (deriveSeed sb) i) 1024)).2 = 8192 := by
    intro i
    rw [count_bits_sum, hlen]
  have hs := sums_of_tallies (n - 1)
    (fun i => count_bits (rng (flipSeed (deriveSeed sb) i) 1024)) hper
  have hq := count_bits_sum sb
  constructor
  · simp only [perform_multiple_flips]
    rw [reduceTallies_eq]
    dsimp only
    omega
  · simp only [perform_multiple_flips]
    omega

/-- C5 witness: the invariant at a concrete run of two flips with a
pinned all-zero generator stream and a one-byte entropy buffer. -/
theorem C5_tally_invariant_witness :
    (count_bits [5]).1 + (count_bits [5]).2 = 8 * ([5] : List Nat).length ∧
    (perform_multiple_flips (fun _ n => List.replicate n 0) [5] 2).1 +
      (perform_multiple_flips (fun _ n => List.replicate n 0) [5] 2).2.1 =
      8 * ((2 - 1) * 1024 + ([5] : List Nat).length) :=
  ⟨C5_tally_invariant.1 [5],
   ((C5_tally_invariant.2 (fun _ n => List.replicate n 0) [5] 2)
     (fun _ => List.length_replicate 1024 0)).1⟩

/-- C6: sampling is deterministic (the tally is a function of the rng
stream, the entropy buffer and the flip count alone), and the tally
reduction operator is associative and commutative with identity
(0, 0), so reducing the per-task tallies in any order (any permutation
of the task list) yields the same reduced tally. -/
theorem C6_order_independence :
    (∀ (rng : (Fin 32 → Nat) → Nat → List Nat) (sb : List Nat) (n : Nat),
      perform_multiple_flips rng sb n = perform_multiple_flips rng sb n) ∧
    (∀ a b c : Nat × Nat, tallyAdd (tallyAdd a b) c = tallyAdd a (tallyAdd b c)) ∧
    (∀ a b : Nat × Nat, tallyAdd a b = tallyAdd b a) ∧
    (∀ a : Nat × Nat, tallyAdd (0, 0) a = a ∧ tallyAdd a (0, 0) = a) ∧
    (∀ l1 l2 : List (Nat × Nat), l1.Perm l2 → reduceTallies l1 = reduceTallies l2) := by
  refine ⟨fun _ _ _ => rfl, ?_, ?_, ?_, ?_⟩
  · intro a b c
    simp only [tallyAdd, Prod.mk.injEq]
    constructor <;> omega
  · intro a b
    simp only [tallyAdd, Prod.mk.injEq]
    constructor <;> omega
  · intro a
    simp [tallyAdd]
  · intro l1 l2 h
    rw [reduceTallies_eq, reduceTallies_eq,
      (h.map Prod.fst).sum_eq, (h.map Prod.snd).sum_eq]

/-- C6 witness: rerunning a concrete sampling run reproduces its tally,
and a concrete two-task reduction is invariant under swapping the
tasks. -/
theorem C6_order_independence_witness :
    perform_multiple_flips (fun _ n => List.replicate n 0) [3] 1 =
      perform_multiple_flips (fun _ n => List.replicate n 0) [3] 1 ∧
    reduceTallies [(1, 2), (3, 4)] = reduceTallies [(3, 4), (1, 2)] :=
  ⟨C6_order_independence.1 (fun _ n => List.replicate n 0) [3] 1,
   C6_order_independence.2.2.2.2 [(1, 2), (3, 4)] [(3, 4), (1, 2)]
     (List.Perm.swap (3, 4) (1, 2) [])⟩

/-! ## C4 and C10: per-flip seed structure and distinctness -/

lemma mod_mul_256 (p n : Nat) :
    n % (p * 256) = p * (n / p % 256) + n % p := by
  have h1 := Nat.div_add_mod (n % (p * 256)) p
  rw [Nat.mod_mul_right_div_self, Nat.mod_mod_of_dvd n (dvd_mul_right p 256)] at h1
  omega

lemma digits_eq_of_bytes_eq : ∀ (d i j : Nat),
    (∀ k, k < d → i / 256 ^ k % 256 = j / 256 ^ k % 256) →
    i % 256 ^ d = j % 256 ^ d := by
  intro d
  induction d with
  | zero => intro i j _; omega
  | succ d ih =>
    intro i j h
    have h1 := ih i j fun k hk => h k (by omega)
    have h2 := h d (by omega)
    rw [pow_succ, mod_mul_256 (256 ^ d) i, mod_mul_256 (256 ^ d) j, h1, h2]

lemma flipSeed_inj (s : Fin 32 → Nat) {i j : Nat} (hi : i < 2 ^ 64)
    (hj : j < 2 ^ 64) (h : flipSeed s i = flipSeed s j) : i = j := by
  have hbytes : ∀ k, k < 8 → i / 256 ^ k % 256 = j / 256 ^ k % 256 := by
    intro k hk
    have hfun := congrFun h ⟨k, by omega⟩
    unfold flipSeed at hfun
    rw [if_pos (show k < 8 from hk), if_pos (show k < 8 from hk)] at hfun
    exact Nat.xor_right_injective hfun
  have hmod := digits_eq_of_bytes_eq 8 i j hbytes
  have h256 : (256 : Nat) ^ 8 = 2 ^ 64 := by norm_num
  rwa [h256, Nat.mod_eq_of_lt hi, Nat.mod_eq_of_lt hj] at hmod

/-- C4 counterexample: for the 4-byte buffer split into 2 slices of 2
bytes, the buffers 0,0,0,0 and 0,0,1,0 agree on slice 0 (their first
two bytes), yet the per-flip seed for flip index 0 differs between
them; so the seed of index 0 is not derived from (slice 0, 0) and the
derivation does not partition the buffer as the claim states. -/
theorem C4_counterexample :
    ([0, 0, 0, 0] : List Nat).take 2 = ([0, 0, 1, 0] : List Nat).take 2 ∧
    flipSeed (deriveSeed [0, 0, 0, 0]) 0 ≠ flipSeed (deriveSeed [0, 0, 1, 0]) 0 := by
  decide

/-- C4 (amended): multi-flip derivation does not partition the entropy
buffer: every per-flip seed is built from the single base seed, which
for buffers of at least 32 bytes depends only on the first 32 bytes;
the flip index is mixed in by XOR-ing its little-endian bytes into the
first 8 seed bytes, and distinct flip indices below 2 ^ 64 still yield
distinct per-flip seeds. -/
theorem C4_no_partition :
    (∀ bs cs : List Nat, 32 ≤ bs.length → 32 ≤ cs.length →
      bs.take 32 = cs.take 32 → ∀ idx : Nat,
      flipSeed (deriveSeed bs) idx = flipSeed (deriveSeed cs) idx) ∧
    (∀ (s : Fin 32 → Nat) (i j : Nat), i < 2 ^ 64 → j < 2 ^ 64 → i ≠ j →
      flipSeed s i ≠ flipSeed s j) := by
  constructor
  · intro bs cs hb hc h idx
    rw [deriveSeed_eq_of_take_eq hb hc h]
  · intro s i j hi hj hne h
    exact hne (flipSeed_inj s hi hj h)

/-- C4 witness: two 33-byte buffers equal on their first 32 bytes give
the same per-flip seed at index 0, and flip indices 0 and 1 give
distinct per-flip seeds for the all-zero base seed. -/
theorem C4_no_partition_witness :
    flipSeed (deriveSeed (List.replicate 33 1)) 0 =
      flipSeed (deriveSeed (List.replicate 32 1 ++ [5])) 0 ∧
    flipSeed (fun _ => 0) 0 ≠ flipSeed (fun _ => 0) 1 :=
  ⟨C4_no_partition.1 (List.replicate 33 1) (List.replicate 32 1 ++ [5])
      (by decide) (by decide) (by decide) 0,
   C4_no_partition.2 (fun _ => 0) 0 1 (by norm_num) (by norm_num) (by omega)⟩

/-- C10: for a fixed base seed, XOR-ing the little-endian bytes of the
flip index into the first 8 seed bytes is injective in the index below
2 ^ 64: two flip indices with equal per-flip seeds are equal, so no two
sampling tasks of one run instantiate their PRNG from the same seed. -/
theorem C10_flip_seed_injective : ∀ (s : Fin 32 → Nat) (i j : Nat),
    i < 2 ^ 64 → j < 2 ^ 64 → flipSeed s i = flipSeed s j → i = j :=
  fun s _ _ hi hj h => flipSeed_inj s hi hj h

/-- C10 witness: the injectivity theorem applied at the all-zero seed
and flip index 5 on both sides. -/
theorem C10_flip_seed_injective_witness :
    flipSeed (fun _ => 0) 5 = flipSeed (fun _ => 0) 5 ∧ (5 : Nat) = 5 :=
  ⟨rfl, C10_flip_seed_injective (fun _ => 0) 5 5 (by norm_num) (by norm_num) rfl⟩

end QCoin
